import Mathlib

/-!
# Teleop plugin (src/plugins/teleop/Teleop.cc)

A shallow embedding of the `Teleop` GUI plugin: its private state block
(`TeleopPrivate`), the slots called by the user interface, the key-event filter and
the publish step.

Conventions of the embedding.

* C++ `float`/`double` objects are IEEE-754 values (`Flt`): not-a-number, the two
  infinities, and signed finite dyadic numbers. Arithmetic in `float` rounds to
  binary32 (round to nearest, ties to even). A `float` converted to `double` keeps its
  value, so storing a `float` product in a `double` message field is the identity.
* Everything the plugin does to the outside world (advertising a topic, publishing a
  message, writing a log line, emitting a Qt signal) is appended to a list of effects
  carried next to the state block, oldest first.
* `Node::Advertise` is the transport library; it is taken to hand back a publisher that
  is bound to the topic it was given. A command is a call of `Publisher::Publish`,
  recorded with the publisher it went through.
* `QString::toDouble` is the Qt library; the velocity slots are modelled on the `double`
  it returns.
* `Teleop::LoadConfig` sets the panel title and installs the event filter; it does not
  touch the state block and is left out.
-/

namespace IgnGui

/-! ## IEEE-754 values -/

/-- Value of a C++ floating-point object: not-a-number, a signed infinity, or the signed
finite number `(-1)^neg * m * 2^e`. Results of arithmetic are kept in lowest terms
(`m` odd, or `m = 0` and `e = 0`). -/
inductive Flt where
  | nan
  | inf (neg : Bool)
  | fin (neg : Bool) (m : Nat) (e : Int)
  deriving DecidableEq, Repr

/-- Parameters of a binary floating-point format. -/
structure Format where
  /-- number of significand bits -/
  prec : Nat
  /-- exponent of the last significand bit of the subnormal numbers -/
  emin : Int
  /-- exponent of the last significand bit of the largest finite numbers -/
  emax : Int
  deriving DecidableEq, Repr

/-- The `float` type. -/
def binary32 : Format := ⟨24, -149, 104⟩

/-- Number of binary digits of `m`, by halving at most `fuel` times. -/
def bitLength : Nat → Nat → Nat
  | 0, _ => 0
  | fuel + 1, m => if m = 0 then 0 else bitLength fuel (m / 2) + 1

/-- Remove common factors of two from `m * 2^e`, at most `fuel` times. -/
def lowestTerms : Nat → Nat → Int → Nat × Int
  | 0, m, e => (m, e)
  | fuel + 1, m, e =>
    if m ≠ 0 ∧ m % 2 = 0 then lowestTerms fuel (m / 2) (e + 1) else (m, e)

/-- Round the exact number `(-1)^neg * m * 2^e` into format `f`: to nearest, ties to
even, overflowing to infinity. -/
def Flt.round (f : Format) (neg : Bool) (m : Nat) (e : Int) : Flt :=
  -- exponent of the last bit that the format can keep
  let q : Int := max (e + (bitLength m m : Int) - (f.prec : Int)) f.emin
  let t : Nat :=
    if q ≤ e then m
    else
      let sh := (q - e).toNat
      let hi := m / 2 ^ sh
      let lo := m % 2 ^ sh
      if 2 ^ sh < 2 * lo ∨ (2 * lo = 2 ^ sh ∧ hi % 2 = 1) then hi + 1 else hi
  let k : Int := if q ≤ e then e else q
  if t = 0 then Flt.fin neg 0 0
  else if f.emax + (f.prec : Int) < k + (bitLength t t : Int) then Flt.inf neg
  else Flt.fin neg (lowestTerms t t k).1 (lowestTerms t t k).2

/-- Conversion `int` to `float`. -/
def Flt.ofInt (n : Int) : Flt :=
  Flt.round binary32 (decide (n < 0)) n.natAbs 0

/-- Conversion `double` to `float` (the assignment of a `double` to a `float` field). -/
def Flt.toFloat : Flt → Flt
  | Flt.fin neg m e => Flt.round binary32 neg m e
  | x => x

/-- Multiplication of two `float` operands. -/
def Flt.mul : Flt → Flt → Flt
  | Flt.nan, _ => Flt.nan
  | _, Flt.nan => Flt.nan
  | Flt.inf a, Flt.inf b => Flt.inf (xor a b)
  | Flt.inf a, Flt.fin b m _ => if m = 0 then Flt.nan else Flt.inf (xor a b)
  | Flt.fin a m _, Flt.inf b => if m = 0 then Flt.nan else Flt.inf (xor a b)
  | Flt.fin a m e, Flt.fin b n k => Flt.round binary32 (xor a b) (m * n) (e + k)

/-- The value is a zero (`+0` or `-0`), that is, it compares equal to `0`. -/
def Flt.isZero : Flt → Bool
  | Flt.fin _ 0 _ => true
  | _ => false

/-- The value is neither an infinity nor not-a-number. -/
def Flt.isFinite : Flt → Bool
  | Flt.fin _ _ _ => true
  | _ => false

/-- Positive zero, the value of a numeric field that was never set. -/
def Flt.zero : Flt := Flt.fin false 0 0

/-! ## Data model -/

/-- Linear key state (`enum class keyLinear`). -/
inductive keyLinear where
  | forward
  | backward
  | stop
  deriving DecidableEq, Repr

/-- Angular key state (`enum class keyAngular`). -/
inductive keyAngular where
  | left
  | right
  | stop
  deriving DecidableEq, Repr

/-- Handle `ignition::transport::Node::Publisher`: default-constructed (bound to
nothing) or obtained by advertising a topic. -/
inductive Publisher where
  | unbound
  | bound (topic : String)
  deriving DecidableEq, Repr

/-- Message `ignition::msgs::Vector3d`; unset fields read as zero. -/
structure Vector3d where
  x : Flt := Flt.zero
  y : Flt := Flt.zero
  z : Flt := Flt.zero
  deriving DecidableEq, Repr

/-- Message `ignition::msgs::Twist`. -/
structure Twist where
  linear : Vector3d := {}
  angular : Vector3d := {}
  deriving DecidableEq, Repr

/-- State block `TeleopPrivate`, with the member initialisers of the class. -/
structure TeleopPrivate where
  topic : String := "/cmd_vel"
  cmdVelPub : Publisher := Publisher.unbound
  linearVel : Flt := Flt.ofInt 0
  angularVel : Flt := Flt.ofInt 0
  linearDir : Int := 0
  angularDir : Int := 0
  linearState : keyLinear := keyLinear.stop
  angularState : keyAngular := keyAngular.stop
  keyEnable : Bool := false
  newTopic : Bool := true
  deriving DecidableEq, Repr

/-- Lines written with `ignmsg`. -/
inductive LogLine where
  | topic (topic : String)
  | linearVelocity (v : Flt)
  | angularVelocity (v : Flt)
  | nonValidKey
  deriving DecidableEq, Repr

/-- Actions of the plugin on its environment. -/
inductive Effect where
  /-- call of `node.Advertise<msgs::Twist>(topic)` -/
  | advertise (topic : String)
  /-- call of `pub.Publish(msg)` -/
  | publish (pub : Publisher) (msg : Twist)
  /-- line written with `ignmsg` -/
  | ignmsg (line : LogLine)
  /-- signal `LinearDirectionChanged()` -/
  | LinearDirectionChanged
  /-- signal `AngularDirectionChanged()` -/
  | AngularDirectionChanged
  deriving DecidableEq, Repr

/-- The plugin object: its state block and the effects it has produced so far, oldest
first. -/
structure Teleop where
  dataPtr : TeleopPrivate := {}
  effects : List Effect := []
  deriving DecidableEq, Repr

/-- Key events seen by the event filter (`QEvent::type()` and `QKeyEvent::key()`); every
other event type is `other`. -/
inductive QEvent where
  | KeyPress (key : Int)
  | KeyRelease (key : Int)
  | other
  deriving DecidableEq, Repr

/-- Key code `Qt::Key_W`. -/
def Key_W : Int := 0x57
/-- Key code `Qt::Key_A`. -/
def Key_A : Int := 0x41
/-- Key code `Qt::Key_D`. -/
def Key_D : Int := 0x44
/-- Key code `Qt::Key_X`. -/
def Key_X : Int := 0x58

/-! ## Operations -/

/-- Constructor `Teleop::Teleop()`: a fresh state block, nothing done yet. -/
def Teleop.new : Teleop := {}

/-- The message `cmdVelMsg` that `Teleop::OnTeleopTwist` builds: `linear.x` and
`angular.z` are set to the `int * float` products, every other field is left unset. -/
def Teleop.cmdVelMsg (t : Teleop) : Twist :=
  { linear := { x := Flt.mul (Flt.ofInt t.dataPtr.linearDir) t.dataPtr.linearVel },
    angular := { z := Flt.mul (Flt.ofInt t.dataPtr.angularDir) t.dataPtr.angularVel } }

/-- Publish step `Teleop::OnTeleopTwist`. When a topic change is pending, the publisher
is replaced (first by a default-constructed one, then by the one that `Advertise`
returns) and the pending mark is cleared; then the message is published. -/
def Teleop.OnTeleopTwist (t : Teleop) : Teleop :=
  let cmdVelMsg : Twist := Teleop.cmdVelMsg t
  let t1 : Teleop :=
    if t.dataPtr.newTopic = true then
      { dataPtr := { t.dataPtr with
                       cmdVelPub := Publisher.bound t.dataPtr.topic,
                       newTopic := false },
        effects := t.effects ++ [Effect.advertise t.dataPtr.topic] }
    else t
  { t1 with effects := t1.effects ++ [Effect.publish t1.dataPtr.cmdVelPub cmdVelMsg] }

/-- Slot `Teleop::OnTopicSelection`. -/
def Teleop.OnTopicSelection (t : Teleop) (topic : String) : Teleop :=
  { dataPtr := { t.dataPtr with newTopic := true, topic := topic },
    effects := t.effects ++ [Effect.ignmsg (LogLine.topic topic)] }

/-- Slot `Teleop::OnLinearVelSelection`; `velocity` is the `double` returned by
`_velocity.toDouble()`. -/
def Teleop.OnLinearVelSelection (t : Teleop) (velocity : Flt) : Teleop :=
  { dataPtr := { t.dataPtr with linearVel := Flt.toFloat velocity },
    effects := t.effects ++ [Effect.ignmsg (LogLine.linearVelocity (Flt.toFloat velocity))] }

/-- Slot `Teleop::OnAngularVelSelection`; `velocity` is the `double` returned by
`_velocity.toDouble()`. -/
def Teleop.OnAngularVelSelection (t : Teleop) (velocity : Flt) : Teleop :=
  { dataPtr := { t.dataPtr with angularVel := Flt.toFloat velocity },
    effects := t.effects ++ [Effect.ignmsg (LogLine.angularVelocity (Flt.toFloat velocity))] }

/-- Slot `Teleop::OnKeySwitch`. -/
def Teleop.OnKeySwitch (t : Teleop) (checked : Bool) : Teleop :=
  { t with dataPtr := { t.dataPtr with linearDir := 0, angularDir := 0, keyEnable := checked } }

/-- Slot `Teleop::OnSlidersSwitch`. -/
def Teleop.OnSlidersSwitch (t : Teleop) (checked : Bool) : Teleop :=
  if checked = true then
    Teleop.OnTeleopTwist
      { t with dataPtr := { t.dataPtr with linearDir := 1, angularDir := 1 } }
  else t

/-- Method `Teleop::setKeyDirection`. -/
def Teleop.setKeyDirection (t : Teleop) : Teleop :=
  let linearDir : Int :=
    if t.dataPtr.linearState = keyLinear.forward then 1
    else if t.dataPtr.linearState = keyLinear.backward then -1
    else 0
  let angularDir : Int :=
    if t.dataPtr.angularState = keyAngular.left then 1
    else if t.dataPtr.angularState = keyAngular.right then -1
    else 0
  { t with dataPtr := { t.dataPtr with linearDir := linearDir, angularDir := angularDir } }

/-- The `switch` of the key-press branch of `Teleop::eventFilter`. -/
def Teleop.pressSwitch (t : Teleop) (key : Int) : Teleop :=
  if key = Key_W then
    { t with dataPtr := { t.dataPtr with linearState := keyLinear.forward } }
  else if key = Key_A then
    { t with dataPtr := { t.dataPtr with angularState := keyAngular.left } }
  else if key = Key_D then
    { t with dataPtr := { t.dataPtr with angularState := keyAngular.right } }
  else if key = Key_X then
    { t with dataPtr := { t.dataPtr with linearState := keyLinear.backward } }
  else
    { t with effects := t.effects ++ [Effect.ignmsg LogLine.nonValidKey] }

/-- The `switch` of the key-release branch of `Teleop::eventFilter`. -/
def Teleop.releaseSwitch (t : Teleop) (key : Int) : Teleop :=
  if key = Key_W then
    { t with dataPtr := { t.dataPtr with linearState := keyLinear.stop } }
  else if key = Key_A then
    { t with dataPtr := { t.dataPtr with angularState := keyAngular.stop } }
  else if key = Key_D then
    { t with dataPtr := { t.dataPtr with angularState := keyAngular.stop } }
  else if key = Key_X then
    { t with dataPtr := { t.dataPtr with linearState := keyLinear.stop } }
  else
    { t with effects := t.effects ++ [Effect.ignmsg LogLine.nonValidKey] }

/-- Filter `Teleop::eventFilter`: the two `if` statements in sequence. The value it
returns (that of `QObject::eventFilter`) does not depend on the plugin and is left out. -/
def Teleop.eventFilter (t : Teleop) (event : QEvent) : Teleop :=
  let t1 : Teleop :=
    match event with
    | QEvent.KeyPress key =>
      if t.dataPtr.keyEnable = true then
        Teleop.OnTeleopTwist (Teleop.setKeyDirection (Teleop.pressSwitch t key))
      else t
    | _ => t
  match event with
  | QEvent.KeyRelease key =>
    if t1.dataPtr.keyEnable = true then
      Teleop.OnTeleopTwist (Teleop.setKeyDirection (Teleop.releaseSwitch t1 key))
    else t1
  | _ => t1

/-- Property writer `Teleop::setLinearDirection`. -/
def Teleop.setLinearDirection (t : Teleop) (linearDir : Int) : Teleop :=
  { dataPtr := { t.dataPtr with linearDir := linearDir },
    effects := t.effects ++ [Effect.LinearDirectionChanged] }

/-- Property writer `Teleop::setAngularDirection`. -/
def Teleop.setAngularDirection (t : Teleop) (angularDir : Int) : Teleop :=
  { dataPtr := { t.dataPtr with angularDir := angularDir },
    effects := t.effects ++ [Effect.AngularDirectionChanged] }

/-- Property reader `Teleop::LinearDirection`. -/
def Teleop.LinearDirection (t : Teleop) : Int := t.dataPtr.linearDir

/-- Property reader `Teleop::AngularDirection`. -/
def Teleop.AngularDirection (t : Teleop) : Int := t.dataPtr.angularDir

/-! ## Operation sequences -/

/-- One call made by the user interface on the plugin. -/
inductive Op where
  | OnTopicSelection (topic : String)
  | OnLinearVelSelection (velocity : Flt)
  | OnAngularVelSelection (velocity : Flt)
  | OnKeySwitch (checked : Bool)
  | OnSlidersSwitch (checked : Bool)
  | eventFilter (event : QEvent)
  | OnTeleopTwist
  | setLinearDirection (linearDir : Int)
  | setAngularDirection (angularDir : Int)
  deriving DecidableEq, Repr

/-- Perform one call. -/
def Teleop.step (t : Teleop) : Op → Teleop
  | Op.OnTopicSelection topic => Teleop.OnTopicSelection t topic
  | Op.OnLinearVelSelection velocity => Teleop.OnLinearVelSelection t velocity
  | Op.OnAngularVelSelection velocity => Teleop.OnAngularVelSelection t velocity
  | Op.OnKeySwitch checked => Teleop.OnKeySwitch t checked
  | Op.OnSlidersSwitch checked => Teleop.OnSlidersSwitch t checked
  | Op.eventFilter event => Teleop.eventFilter t event
  | Op.OnTeleopTwist => Teleop.OnTeleopTwist t
  | Op.setLinearDirection linearDir => Teleop.setLinearDirection t linearDir
  | Op.setAngularDirection angularDir => Teleop.setAngularDirection t angularDir

/-- Perform a sequence of calls, first to last. -/
def Teleop.run (t : Teleop) (ops : List Op) : Teleop :=
  ops.foldl Teleop.step t

/-! ## Vocabulary of the properties -/

/-- The `Publish` calls among a list of effects, in order: the publisher used and the
message sent. -/
def commands : List Effect → List (Publisher × Twist)
  | [] => []
  | Effect.publish pub msg :: es => (pub, msg) :: commands es
  | _ :: es => commands es

/-- The `Advertise` calls among a list of effects, in order. -/
def advertised : List Effect → List String
  | [] => []
  | Effect.advertise topic :: es => topic :: advertised es
  | _ :: es => advertised es

/-- Direction that the specification assigns to a linear key state:
forward is +1, backward is -1, stop is 0. -/
def specLinearDir : keyLinear → Int
  | keyLinear.forward => 1
  | keyLinear.backward => -1
  | keyLinear.stop => 0

/-- Direction that the specification assigns to an angular key state:
left is +1, right is -1, stop is 0. -/
def specAngularDir : keyAngular → Int
  | keyAngular.left => 1
  | keyAngular.right => -1
  | keyAngular.stop => 0

/-- The direction multipliers are the function of the two key states that the
specification describes. -/
def DirFromKeys (d : TeleopPrivate) : Prop :=
  d.linearDir = specLinearDir d.linearState ∧ d.angularDir = specAngularDir d.angularState

instance (d : TeleopPrivate) : Decidable (DirFromKeys d) := by
  unfold DirFromKeys; infer_instance

/-- The event is a key press or a key release. -/
def QEvent.isKey : QEvent → Bool
  | QEvent.KeyPress _ => true
  | QEvent.KeyRelease _ => true
  | QEvent.other => false

/-- The key is one of the four that the event filter recognises. -/
def recognised (key : Int) : Bool :=
  decide (key = Key_W ∨ key = Key_A ∨ key = Key_D ∨ key = Key_X)

/-- The topic that a sequence of calls selected last, `/cmd_vel` if it selected none. -/
def lastTopic (ops : List Op) : String :=
  ops.foldl (fun acc o => match o with
    | Op.OnTopicSelection topic => topic
    | _ => acc) "/cmd_vel"

/-- The call writes the direction multipliers without consulting the key states. -/
def Op.forcesDirection : Op → Bool
  | Op.OnKeySwitch _ => true
  | Op.OnSlidersSwitch checked => checked
  | Op.setLinearDirection _ => true
  | Op.setAngularDirection _ => true
  | _ => false

/-- The publisher is usable: when no topic change is pending it is bound to the current
topic. -/
def PublisherBound (d : TeleopPrivate) : Prop :=
  d.newTopic = false → d.cmdVelPub = Publisher.bound d.topic

/-- The effects of `t2` are those of `t1` followed by new ones, and every command among
the new ones went through a publisher bound to `topic`. -/
def SendsOn (topic : String) (t1 t2 : Teleop) : Prop :=
  ∃ added : List Effect, t2.effects = t1.effects ++ added ∧
    ∀ c ∈ commands added, c.1 = Publisher.bound topic

/-! ## Scenarios used as concrete inputs -/

/-- Key code `Qt::Key_Q`, a key that the event filter does not recognise. -/
def Key_Q : Int := 0x51

/-- A plugin with keyboard control switched on, linear magnitude 2.5 and an infinite
angular magnitude (what `toDouble` returns for a text that overflows, such as
`1e999`). -/
def infiniteAngular : Teleop :=
  Teleop.OnAngularVelSelection
    (Teleop.OnLinearVelSelection (Teleop.OnKeySwitch Teleop.new true) (Flt.fin false 5 (-1)))
    (Flt.inf false)

/-- A plugin with keyboard control switched on and magnitudes 2.5 and 0.5. -/
def keyboardOn : Teleop :=
  Teleop.OnAngularVelSelection
    (Teleop.OnLinearVelSelection (Teleop.OnKeySwitch Teleop.new true) (Flt.fin false 5 (-1)))
    (Flt.fin false 1 (-1))

/-- A plugin with keyboard control switched on and the key X held down. -/
def holdingX : Teleop :=
  Teleop.eventFilter keyboardOn (QEvent.KeyPress Key_X)

/-- A plugin with keyboard control switched on, then the sliders switched on: both
directions are 1 while both key states are at stop. -/
def slidersAfterKeyboard : Teleop :=
  Teleop.OnSlidersSwitch keyboardOn true

/-! ## Basic facts -/

theorem commands_append (a b : List Effect) :
    commands (a ++ b) = commands a ++ commands b := by
  induction a with
  | nil => rfl
  | cons e es ih => cases e <;> simp [commands, ih]

theorem advertised_append (a b : List Effect) :
    advertised (a ++ b) = advertised a ++ advertised b := by
  induction a with
  | nil => rfl
  | cons e es ih => cases e <;> simp [advertised, ih]

theorem Flt.mul_comm (a b : Flt) : Flt.mul a b = Flt.mul b a := by
  cases a <;> cases b <;> simp [Flt.mul, Bool.xor_comm, Nat.mul_comm, Int.add_comm]

theorem Flt.zero_mul_finite (neg : Bool) (m : Nat) (e : Int) :
    Flt.mul (Flt.ofInt 0) (Flt.fin neg m e) = Flt.fin neg 0 0 := by
  simp [Flt.mul, Flt.ofInt, Flt.round]

theorem Flt.zero_mul_nan : Flt.mul (Flt.ofInt 0) Flt.nan = Flt.nan := by
  simp [Flt.mul, Flt.ofInt, Flt.round]

theorem Flt.zero_mul_inf (neg : Bool) : Flt.mul (Flt.ofInt 0) (Flt.inf neg) = Flt.nan := by
  simp [Flt.mul, Flt.ofInt, Flt.round]

theorem Teleop.run_append (t : Teleop) (a b : List Op) :
    Teleop.run t (a ++ b) = Teleop.run (Teleop.run t a) b := by
  simp [Teleop.run, List.foldl_append]

theorem OnTeleopTwist_commands (t : Teleop) :
    commands (Teleop.OnTeleopTwist t).effects =
      commands t.effects ++
        [((Teleop.OnTeleopTwist t).dataPtr.cmdVelPub, Teleop.cmdVelMsg t)] := by
  unfold Teleop.OnTeleopTwist
  by_cases h : t.dataPtr.newTopic = true <;> simp [h, commands_append, commands]

theorem OnTeleopTwist_frame (t : Teleop) :
    (Teleop.OnTeleopTwist t).dataPtr.linearVel = t.dataPtr.linearVel ∧
    (Teleop.OnTeleopTwist t).dataPtr.angularVel = t.dataPtr.angularVel ∧
    (Teleop.OnTeleopTwist t).dataPtr.linearDir = t.dataPtr.linearDir ∧
    (Teleop.OnTeleopTwist t).dataPtr.angularDir = t.dataPtr.angularDir ∧
    (Teleop.OnTeleopTwist t).dataPtr.linearState = t.dataPtr.linearState ∧
    (Teleop.OnTeleopTwist t).dataPtr.angularState = t.dataPtr.angularState ∧
    (Teleop.OnTeleopTwist t).dataPtr.keyEnable = t.dataPtr.keyEnable ∧
    (Teleop.OnTeleopTwist t).dataPtr.topic = t.dataPtr.topic := by
  unfold Teleop.OnTeleopTwist
  by_cases h : t.dataPtr.newTopic = true <;> simp [h]

theorem OnTeleopTwist_publisher (t : Teleop) :
    (Teleop.OnTeleopTwist t).dataPtr.cmdVelPub =
        (if t.dataPtr.newTopic = true then Publisher.bound t.dataPtr.topic
         else t.dataPtr.cmdVelPub) ∧
    (Teleop.OnTeleopTwist t).dataPtr.newTopic = false := by
  unfold Teleop.OnTeleopTwist
  by_cases h : t.dataPtr.newTopic = true <;> simp [h]

theorem eventFilter_press (t : Teleop) (key : Int) (h : t.dataPtr.keyEnable = true) :
    Teleop.eventFilter t (QEvent.KeyPress key) =
      Teleop.OnTeleopTwist (Teleop.setKeyDirection (Teleop.pressSwitch t key)) := by
  simp [Teleop.eventFilter, h]

theorem eventFilter_release (t : Teleop) (key : Int) (h : t.dataPtr.keyEnable = true) :
    Teleop.eventFilter t (QEvent.KeyRelease key) =
      Teleop.OnTeleopTwist (Teleop.setKeyDirection (Teleop.releaseSwitch t key)) := by
  simp [Teleop.eventFilter, h]

theorem eventFilter_disabled (t : Teleop) (event : QEvent)
    (h : t.dataPtr.keyEnable = false) : Teleop.eventFilter t event = t := by
  cases event <;> simp [Teleop.eventFilter, h]

theorem setKeyDirection_spec (t : Teleop) :
    (Teleop.setKeyDirection t).dataPtr.linearDir = specLinearDir t.dataPtr.linearState ∧
    (Teleop.setKeyDirection t).dataPtr.angularDir = specAngularDir t.dataPtr.angularState ∧
    (Teleop.setKeyDirection t).dataPtr.linearState = t.dataPtr.linearState ∧
    (Teleop.setKeyDirection t).dataPtr.angularState = t.dataPtr.angularState ∧
    (Teleop.setKeyDirection t).dataPtr.keyEnable = t.dataPtr.keyEnable ∧
    (Teleop.setKeyDirection t).dataPtr.linearVel = t.dataPtr.linearVel ∧
    (Teleop.setKeyDirection t).dataPtr.angularVel = t.dataPtr.angularVel ∧
    (Teleop.setKeyDirection t).dataPtr.topic = t.dataPtr.topic ∧
    (Teleop.setKeyDirection t).dataPtr.newTopic = t.dataPtr.newTopic ∧
    (Teleop.setKeyDirection t).dataPtr.cmdVelPub = t.dataPtr.cmdVelPub ∧
    (Teleop.setKeyDirection t).effects = t.effects := by
  unfold Teleop.setKeyDirection
  cases hl : t.dataPtr.linearState <;> cases ha : t.dataPtr.angularState <;>
    simp [specLinearDir, specAngularDir]

theorem specLinearDir_range (s : keyLinear) :
    specLinearDir s = -1 ∨ specLinearDir s = 0 ∨ specLinearDir s = 1 := by
  cases s <;> simp [specLinearDir]

theorem specAngularDir_range (s : keyAngular) :
    specAngularDir s = -1 ∨ specAngularDir s = 0 ∨ specAngularDir s = 1 := by
  cases s <;> simp [specAngularDir]

/-- After `setKeyDirection` and the publish step the directions are those of the key
states, and exactly one command has been added. -/
theorem keyTail_spec (t : Teleop) :
    DirFromKeys (Teleop.OnTeleopTwist (Teleop.setKeyDirection t)).dataPtr ∧
    (Teleop.OnTeleopTwist (Teleop.setKeyDirection t)).dataPtr.linearState
      = t.dataPtr.linearState ∧
    (Teleop.OnTeleopTwist (Teleop.setKeyDirection t)).dataPtr.angularState
      = t.dataPtr.angularState ∧
    commands (Teleop.OnTeleopTwist (Teleop.setKeyDirection t)).effects =
      commands t.effects ++
        [((Teleop.OnTeleopTwist (Teleop.setKeyDirection t)).dataPtr.cmdVelPub,
          Teleop.cmdVelMsg (Teleop.setKeyDirection t))] := by
  obtain ⟨_, _, h3, h4, h5, h6, _, _⟩ := OnTeleopTwist_frame (Teleop.setKeyDirection t)
  obtain ⟨k1, k2, k3, k4, _, _, _, _, _, _, k11⟩ := setKeyDirection_spec t
  refine ⟨⟨?_, ?_⟩, ?_, ?_, ?_⟩
  · rw [h3, h5, k1, k3]
  · rw [h4, h6, k2, k4]
  · rw [h5, k3]
  · rw [h6, k4]
  · rw [OnTeleopTwist_commands, k11]

/-! ## C1: the publish step -/

/-- C1 (as stated, refuted): with keyboard control on, both key states at stop and an
infinite angular magnitude, pressing W publishes a command whose `angular.z` is
`0 * inf`, which is not-a-number and not 0. -/
theorem C1_counterexample_infinite_angular :
    infiniteAngular.dataPtr.keyEnable = true ∧
    infiniteAngular.dataPtr.linearState = keyLinear.stop ∧
    infiniteAngular.dataPtr.angularState = keyAngular.stop ∧
    commands (Teleop.eventFilter infiniteAngular (QEvent.KeyPress Key_W)).effects =
      commands infiniteAngular.effects ++
        [(Publisher.bound "/cmd_vel",
          { linear := { x := Flt.fin false 5 (-1) }, angular := { z := Flt.nan } })] ∧
    Flt.isZero Flt.nan = false := by
  decide

/-- C1 (amended): for every plugin state `t`, `OnTeleopTwist` adds exactly one command,
whose `linear.x` is `linearDir * linearVel` and whose `angular.z` is
`angularDir * angularVel`, through the publisher it leaves in the state block, and
leaves both magnitudes, both directions, both key states and the keyboard flag
unchanged. For every state `u` with keyboard control on and the
angular key state at stop (the linear key state may be anything, stop included),
pressing W adds exactly one command with `linear.x = v * 1` and
`angular.z = 0 * angularVel`; this product is a zero when the angular magnitude is
finite and is not-a-number when the angular magnitude is infinite or not-a-number, so
it is a zero exactly when the angular magnitude is finite. -/
theorem C1_OnTeleopTwist_publishes_product (t u : Teleop)
    (hkey : u.dataPtr.keyEnable = true)
    (hang : u.dataPtr.angularState = keyAngular.stop) :
    (commands (Teleop.OnTeleopTwist t).effects =
        commands t.effects ++
          [((Teleop.OnTeleopTwist t).dataPtr.cmdVelPub, Teleop.cmdVelMsg t)] ∧
      (Teleop.cmdVelMsg t).linear.x =
        Flt.mul (Flt.ofInt t.dataPtr.linearDir) t.dataPtr.linearVel ∧
      (Teleop.cmdVelMsg t).angular.z =
        Flt.mul (Flt.ofInt t.dataPtr.angularDir) t.dataPtr.angularVel ∧
      (Teleop.OnTeleopTwist t).dataPtr.linearVel = t.dataPtr.linearVel ∧
      (Teleop.OnTeleopTwist t).dataPtr.angularVel = t.dataPtr.angularVel ∧
      (Teleop.OnTeleopTwist t).dataPtr.linearDir = t.dataPtr.linearDir ∧
      (Teleop.OnTeleopTwist t).dataPtr.angularDir = t.dataPtr.angularDir ∧
      (Teleop.OnTeleopTwist t).dataPtr.linearState = t.dataPtr.linearState ∧
      (Teleop.OnTeleopTwist t).dataPtr.angularState = t.dataPtr.angularState ∧
      (Teleop.OnTeleopTwist t).dataPtr.keyEnable = t.dataPtr.keyEnable ∧
      (Teleop.OnTeleopTwist t).dataPtr.cmdVelPub =
        (if t.dataPtr.newTopic = true then Publisher.bound t.dataPtr.topic
         else t.dataPtr.cmdVelPub)) ∧
    (commands (Teleop.eventFilter u (QEvent.KeyPress Key_W)).effects =
        commands u.effects ++
          [((Teleop.eventFilter u (QEvent.KeyPress Key_W)).dataPtr.cmdVelPub,
            { linear := { x := Flt.mul u.dataPtr.linearVel (Flt.ofInt 1) },
              angular := { z := Flt.mul (Flt.ofInt 0) u.dataPtr.angularVel } })] ∧
      (Flt.isFinite u.dataPtr.angularVel = true →
        Flt.isZero (Flt.mul (Flt.ofInt 0) u.dataPtr.angularVel) = true) ∧
      (Flt.isFinite u.dataPtr.angularVel = false →
        Flt.mul (Flt.ofInt 0) u.dataPtr.angularVel = Flt.nan) ∧
      Flt.isZero (Flt.mul (Flt.ofInt 0) u.dataPtr.angularVel)
        = Flt.isFinite u.dataPtr.angularVel) := by
  refine ⟨⟨OnTeleopTwist_commands t, rfl, rfl, ?_⟩, ?_, ?_⟩
  · obtain ⟨h1, h2, h3, h4, h5, h6, h7, _⟩ := OnTeleopTwist_frame t
    exact ⟨h1, h2, h3, h4, h5, h6, h7, (OnTeleopTwist_publisher t).1⟩
  · rw [eventFilter_press u Key_W hkey, OnTeleopTwist_commands,
      Flt.mul_comm u.dataPtr.linearVel]
    simp [Teleop.cmdVelMsg, Teleop.setKeyDirection, Teleop.pressSwitch, hang]
  · cases u.dataPtr.angularVel with
    | nan =>
      rw [Flt.zero_mul_nan]
      exact ⟨fun hf => by simp [Flt.isFinite] at hf, fun _ => rfl, rfl⟩
    | inf neg =>
      rw [Flt.zero_mul_inf]
      exact ⟨fun hf => by simp [Flt.isFinite] at hf, fun _ => rfl, rfl⟩
    | fin neg m e =>
      rw [Flt.zero_mul_finite]
      exact ⟨fun _ => rfl, fun hf => by simp [Flt.isFinite] at hf, rfl⟩

/-- C1 (amended), at two concrete states with keyboard control on and both key states
at stop: with magnitudes 2.5 and 0.5 pressing W sends `angular.z` equal to a zero, and
with an infinite angular magnitude it sends not-a-number. -/
theorem C1_OnTeleopTwist_publishes_product_witness :
    (keyboardOn.dataPtr.keyEnable = true ∧
      keyboardOn.dataPtr.linearState = keyLinear.stop ∧
      keyboardOn.dataPtr.angularState = keyAngular.stop ∧
      Flt.isFinite keyboardOn.dataPtr.angularVel = true ∧
      commands (Teleop.eventFilter keyboardOn (QEvent.KeyPress Key_W)).effects =
        commands keyboardOn.effects ++
          [((Teleop.eventFilter keyboardOn (QEvent.KeyPress Key_W)).dataPtr.cmdVelPub,
            { linear := { x := Flt.mul keyboardOn.dataPtr.linearVel (Flt.ofInt 1) },
              angular := { z := Flt.mul (Flt.ofInt 0) keyboardOn.dataPtr.angularVel } })] ∧
      Flt.isZero (Flt.mul (Flt.ofInt 0) keyboardOn.dataPtr.angularVel) = true) ∧
    (infiniteAngular.dataPtr.keyEnable = true ∧
      infiniteAngular.dataPtr.angularState = keyAngular.stop ∧
      Flt.isFinite infiniteAngular.dataPtr.angularVel = false ∧
      Flt.mul (Flt.ofInt 0) infiniteAngular.dataPtr.angularVel = Flt.nan) :=
  ⟨⟨by decide, by decide, by decide, by decide,
      (C1_OnTeleopTwist_publishes_product keyboardOn keyboardOn
        (by decide) (by decide)).2.1,
      (C1_OnTeleopTwist_publishes_product keyboardOn keyboardOn
        (by decide) (by decide)).2.2.1 (by decide)⟩,
    ⟨by decide, by decide, by decide,
      (C1_OnTeleopTwist_publishes_product infiniteAngular infiniteAngular
        (by decide) (by decide)).2.2.2.1 (by decide)⟩⟩

/-! ## C3: the keyboard gate -/

/-- C3: while the keyboard flag is false, `eventFilter` returns the plugin as it was for
every event: the whole state block is unchanged and no effect (so no command) is
added. -/
theorem C3_eventFilter_disabled_is_identity (t : Teleop) (event : QEvent)
    (h : t.dataPtr.keyEnable = false) :
    Teleop.eventFilter t event = t ∧
    (Teleop.eventFilter t event).dataPtr = t.dataPtr ∧
    commands (Teleop.eventFilter t event).effects = commands t.effects := by
  rw [eventFilter_disabled t event h]
  exact ⟨rfl, rfl, rfl⟩

/-- C3, at a concrete state: the fresh plugin (keyboard off) and a press of W. -/
theorem C3_eventFilter_disabled_is_identity_witness :
    Teleop.new.dataPtr.keyEnable = false ∧
    Teleop.eventFilter Teleop.new (QEvent.KeyPress Key_W) = Teleop.new ∧
    (Teleop.eventFilter Teleop.new (QEvent.KeyPress Key_W)).dataPtr = Teleop.new.dataPtr ∧
    commands (Teleop.eventFilter Teleop.new (QEvent.KeyPress Key_W)).effects =
      commands Teleop.new.effects :=
  ⟨by decide,
    C3_eventFilter_disabled_is_identity Teleop.new (QEvent.KeyPress Key_W) (by decide)⟩

/-! ## C4: the keyboard switch -/

/-- C4: `OnKeySwitch b` sets the keyboard flag to `b` and both directions to 0 and adds
no effect (so publishes nothing); after `OnKeySwitch false` then `OnKeySwitch true` both
directions are 0 and keyboard control is on, whatever the state before. -/
theorem C4_OnKeySwitch_resets_directions (t : Teleop) (b : Bool) :
    (Teleop.OnKeySwitch t b).dataPtr.keyEnable = b ∧
    (Teleop.OnKeySwitch t b).dataPtr.linearDir = 0 ∧
    (Teleop.OnKeySwitch t b).dataPtr.angularDir = 0 ∧
    (Teleop.OnKeySwitch t b).effects = t.effects ∧
    commands (Teleop.OnKeySwitch t b).effects = commands t.effects ∧
    (Teleop.OnKeySwitch (Teleop.OnKeySwitch t false) true).dataPtr.linearDir = 0 ∧
    (Teleop.OnKeySwitch (Teleop.OnKeySwitch t false) true).dataPtr.angularDir = 0 ∧
    (Teleop.OnKeySwitch (Teleop.OnKeySwitch t false) true).dataPtr.keyEnable = true ∧
    commands (Teleop.OnKeySwitch (Teleop.OnKeySwitch t false) true).effects =
      commands t.effects := by
  simp [Teleop.OnKeySwitch]

/-! ## C2: key events while keyboard control is on -/

theorem pressSwitch_frame (t : Teleop) (key : Int) :
    (Teleop.pressSwitch t key).dataPtr.keyEnable = t.dataPtr.keyEnable ∧
    (Teleop.pressSwitch t key).dataPtr.linearVel = t.dataPtr.linearVel ∧
    (Teleop.pressSwitch t key).dataPtr.angularVel = t.dataPtr.angularVel ∧
    (Teleop.pressSwitch t key).dataPtr.topic = t.dataPtr.topic ∧
    (Teleop.pressSwitch t key).dataPtr.newTopic = t.dataPtr.newTopic ∧
    (Teleop.pressSwitch t key).dataPtr.cmdVelPub = t.dataPtr.cmdVelPub ∧
    commands (Teleop.pressSwitch t key).effects = commands t.effects := by
  unfold Teleop.pressSwitch
  split_ifs <;> simp [commands_append, commands]

theorem releaseSwitch_frame (t : Teleop) (key : Int) :
    (Teleop.releaseSwitch t key).dataPtr.keyEnable = t.dataPtr.keyEnable ∧
    (Teleop.releaseSwitch t key).dataPtr.linearVel = t.dataPtr.linearVel ∧
    (Teleop.releaseSwitch t key).dataPtr.angularVel = t.dataPtr.angularVel ∧
    (Teleop.releaseSwitch t key).dataPtr.topic = t.dataPtr.topic ∧
    (Teleop.releaseSwitch t key).dataPtr.newTopic = t.dataPtr.newTopic ∧
    (Teleop.releaseSwitch t key).dataPtr.cmdVelPub = t.dataPtr.cmdVelPub ∧
    commands (Teleop.releaseSwitch t key).effects = commands t.effects := by
  unfold Teleop.releaseSwitch
  split_ifs <;> simp [commands_append, commands]

/-- What a key event does to a plugin with keyboard control on: the directions are those
of the key states, each in {-1, 0, 1}, and exactly one command is added. -/
theorem eventFilter_enabled_key (t : Teleop) (event : QEvent)
    (h : t.dataPtr.keyEnable = true) (hk : event.isKey = true) :
    DirFromKeys (Teleop.eventFilter t event).dataPtr ∧
    ((Teleop.eventFilter t event).dataPtr.linearDir = -1 ∨
      (Teleop.eventFilter t event).dataPtr.linearDir = 0 ∨
      (Teleop.eventFilter t event).dataPtr.linearDir = 1) ∧
    ((Teleop.eventFilter t event).dataPtr.angularDir = -1 ∨
      (Teleop.eventFilter t event).dataPtr.angularDir = 0 ∨
      (Teleop.eventFilter t event).dataPtr.angularDir = 1) ∧
    commands (Teleop.eventFilter t event).effects =
      commands t.effects ++
        [((Teleop.eventFilter t event).dataPtr.cmdVelPub,
          Teleop.cmdVelMsg (Teleop.eventFilter t event))] := by
  have key : ∀ s : Teleop, commands s.effects = commands t.effects →
      DirFromKeys (Teleop.OnTeleopTwist (Teleop.setKeyDirection s)).dataPtr ∧
      ((Teleop.OnTeleopTwist (Teleop.setKeyDirection s)).dataPtr.linearDir = -1 ∨
        (Teleop.OnTeleopTwist (Teleop.setKeyDirection s)).dataPtr.linearDir = 0 ∨
        (Teleop.OnTeleopTwist (Teleop.setKeyDirection s)).dataPtr.linearDir = 1) ∧
      ((Teleop.OnTeleopTwist (Teleop.setKeyDirection s)).dataPtr.angularDir = -1 ∨
        (Teleop.OnTeleopTwist (Teleop.setKeyDirection s)).dataPtr.angularDir = 0 ∨
        (Teleop.OnTeleopTwist (Teleop.setKeyDirection s)).dataPtr.angularDir = 1) ∧
      commands (Teleop.OnTeleopTwist (Teleop.setKeyDirection s)).effects =
        commands t.effects ++
          [((Teleop.OnTeleopTwist (Teleop.setKeyDirection s)).dataPtr.cmdVelPub,
            Teleop.cmdVelMsg (Teleop.OnTeleopTwist (Teleop.setKeyDirection s)))] := by
    intro s hs
    obtain ⟨hd, _, _, hc⟩ := keyTail_spec s
    obtain ⟨f1, f2, f3, f4, _, _, _, _⟩ := OnTeleopTwist_frame (Teleop.setKeyDirection s)
    refine ⟨hd, ?_, ?_, ?_⟩
    · rw [hd.1]; exact specLinearDir_range _
    · rw [hd.2]; exact specAngularDir_range _
    · rw [hc, hs]
      simp [Teleop.cmdVelMsg, f1, f2, f3, f4]
  cases event with
  | KeyPress k =>
    rw [eventFilter_press t k h]
    exact key _ (pressSwitch_frame t k).2.2.2.2.2.2
  | KeyRelease k =>
    rw [eventFilter_release t k h]
    exact key _ (releaseSwitch_frame t k).2.2.2.2.2.2
  | other => simp [QEvent.isKey] at hk

/-- C2: with keyboard control on, press W / X / A / D gives linearDir +1 / linearDir -1 /
angularDir +1 / angularDir -1, release W or X gives linearDir 0, release A or D gives
angularDir 0; an event of W or X leaves the angular key state unchanged and an event of
A or D leaves the linear key state unchanged; after every key event each direction is
in {-1, 0, 1} and equals the value of its key state, exactly one command is added; and
handling a release a second time gives the same directions and key states. -/
theorem C2_key_event_sets_direction (t : Teleop) (h : t.dataPtr.keyEnable = true) :
    ((Teleop.eventFilter t (QEvent.KeyPress Key_W)).dataPtr.linearDir = 1 ∧
      (Teleop.eventFilter t (QEvent.KeyPress Key_X)).dataPtr.linearDir = -1 ∧
      (Teleop.eventFilter t (QEvent.KeyPress Key_A)).dataPtr.angularDir = 1 ∧
      (Teleop.eventFilter t (QEvent.KeyPress Key_D)).dataPtr.angularDir = -1 ∧
      (Teleop.eventFilter t (QEvent.KeyRelease Key_W)).dataPtr.linearDir = 0 ∧
      (Teleop.eventFilter t (QEvent.KeyRelease Key_X)).dataPtr.linearDir = 0 ∧
      (Teleop.eventFilter t (QEvent.KeyRelease Key_A)).dataPtr.angularDir = 0 ∧
      (Teleop.eventFilter t (QEvent.KeyRelease Key_D)).dataPtr.angularDir = 0) ∧
    (∀ event ∈ [QEvent.KeyPress Key_W, QEvent.KeyPress Key_X,
          QEvent.KeyRelease Key_W, QEvent.KeyRelease Key_X],
        (Teleop.eventFilter t event).dataPtr.angularState = t.dataPtr.angularState) ∧
    (∀ event ∈ [QEvent.KeyPress Key_A, QEvent.KeyPress Key_D,
          QEvent.KeyRelease Key_A, QEvent.KeyRelease Key_D],
        (Teleop.eventFilter t event).dataPtr.linearState = t.dataPtr.linearState) ∧
    (∀ event : QEvent, event.isKey = true →
        DirFromKeys (Teleop.eventFilter t event).dataPtr ∧
        ((Teleop.eventFilter t event).dataPtr.linearDir = -1 ∨
          (Teleop.eventFilter t event).dataPtr.linearDir = 0 ∨
          (Teleop.eventFilter t event).dataPtr.linearDir = 1) ∧
        ((Teleop.eventFilter t event).dataPtr.angularDir = -1 ∨
          (Teleop.eventFilter t event).dataPtr.angularDir = 0 ∨
          (Teleop.eventFilter t event).dataPtr.angularDir = 1) ∧
        commands (Teleop.eventFilter t event).effects =
          commands t.effects ++
            [((Teleop.eventFilter t event).dataPtr.cmdVelPub,
              Teleop.cmdVelMsg (Teleop.eventFilter t event))]) ∧
    (∀ key : Int,
        (Teleop.eventFilter (Teleop.eventFilter t (QEvent.KeyRelease key))
            (QEvent.KeyRelease key)).dataPtr.linearDir
          = (Teleop.eventFilter t (QEvent.KeyRelease key)).dataPtr.linearDir ∧
        (Teleop.eventFilter (Teleop.eventFilter t (QEvent.KeyRelease key))
            (QEvent.KeyRelease key)).dataPtr.angularDir
          = (Teleop.eventFilter t (QEvent.KeyRelease key)).dataPtr.angularDir ∧
        (Teleop.eventFilter (Teleop.eventFilter t (QEvent.KeyRelease key))
            (QEvent.KeyRelease key)).dataPtr.linearState
          = (Teleop.eventFilter t (QEvent.KeyRelease key)).dataPtr.linearState ∧
        (Teleop.eventFilter (Teleop.eventFilter t (QEvent.KeyRelease key))
            (QEvent.KeyRelease key)).dataPtr.angularState
          = (Teleop.eventFilter t (QEvent.KeyRelease key)).dataPtr.angularState) := by
  refine ⟨?_, ?_, ?_, fun event hk => eventFilter_enabled_key t event h hk, ?_⟩
  · simp [Teleop.eventFilter, h, Teleop.OnTeleopTwist, Teleop.setKeyDirection,
      Teleop.pressSwitch, Teleop.releaseSwitch, Key_W, Key_A, Key_D, Key_X]
    refine ⟨?_, ?_, ?_, ?_⟩ <;> split_ifs <;> simp
  · intro event hmem
    simp only [List.mem_cons, List.mem_singleton, List.not_mem_nil, or_false] at hmem
    rcases hmem with rfl | rfl | rfl | rfl <;>
      simp [Teleop.eventFilter, h, Teleop.OnTeleopTwist, Teleop.setKeyDirection,
        Teleop.pressSwitch, Teleop.releaseSwitch, Key_W, Key_A, Key_D, Key_X] <;>
      split_ifs <;> simp
  · intro event hmem
    simp only [List.mem_cons, List.mem_singleton, List.not_mem_nil, or_false] at hmem
    rcases hmem with rfl | rfl | rfl | rfl <;>
      simp [Teleop.eventFilter, h, Teleop.OnTeleopTwist, Teleop.setKeyDirection,
        Teleop.pressSwitch, Teleop.releaseSwitch, Key_W, Key_A, Key_D, Key_X] <;>
      split_ifs <;> simp
  · intro key
    have h1 : (Teleop.eventFilter t (QEvent.KeyRelease key)).dataPtr.keyEnable = true := by
      rw [eventFilter_release t key h, (OnTeleopTwist_frame _).2.2.2.2.2.2.1,
        (setKeyDirection_spec _).2.2.2.2.1, (releaseSwitch_frame t key).1, h]
    rw [eventFilter_release _ key h1, eventFilter_release t key h]
    simp only [(OnTeleopTwist_frame _).2.2.1, (OnTeleopTwist_frame _).2.2.2.1,
      (OnTeleopTwist_frame _).2.2.2.2.1, (OnTeleopTwist_frame _).2.2.2.2.2.1,
      (setKeyDirection_spec _).1, (setKeyDirection_spec _).2.1,
      (setKeyDirection_spec _).2.2.1, (setKeyDirection_spec _).2.2.2.1]
    unfold Teleop.releaseSwitch
    split_ifs <;>
      simp [(OnTeleopTwist_frame _).2.2.2.2.1, (OnTeleopTwist_frame _).2.2.2.2.2.1,
        (setKeyDirection_spec _).2.2.1, (setKeyDirection_spec _).2.2.2.1]

/-- C2, at a concrete state: keyboard on, magnitudes 2.5 and 0.5. -/
theorem C2_key_event_sets_direction_witness :
    keyboardOn.dataPtr.keyEnable = true ∧
    ((Teleop.eventFilter keyboardOn (QEvent.KeyPress Key_W)).dataPtr.linearDir = 1 ∧
      (Teleop.eventFilter keyboardOn (QEvent.KeyPress Key_X)).dataPtr.linearDir = -1 ∧
      (Teleop.eventFilter keyboardOn (QEvent.KeyPress Key_A)).dataPtr.angularDir = 1 ∧
      (Teleop.eventFilter keyboardOn (QEvent.KeyPress Key_D)).dataPtr.angularDir = -1 ∧
      (Teleop.eventFilter keyboardOn (QEvent.KeyRelease Key_W)).dataPtr.linearDir = 0 ∧
      (Teleop.eventFilter keyboardOn (QEvent.KeyRelease Key_X)).dataPtr.linearDir = 0 ∧
      (Teleop.eventFilter keyboardOn (QEvent.KeyRelease Key_A)).dataPtr.angularDir = 0 ∧
      (Teleop.eventFilter keyboardOn (QEvent.KeyRelease Key_D)).dataPtr.angularDir = 0) :=
  ⟨by decide, (C2_key_event_sets_direction keyboardOn (by decide)).1⟩

/-! ## C5: the sliders switch -/

/-- C5: `OnSlidersSwitch true` sets both directions to 1 and adds exactly one command,
with `linear.x = linearVel * 1` and `angular.z = angularVel * 1`. -/
theorem C5_OnSlidersSwitch_true_publishes_full_scale (t : Teleop) :
    (Teleop.OnSlidersSwitch t true).dataPtr.linearDir = 1 ∧
    (Teleop.OnSlidersSwitch t true).dataPtr.angularDir = 1 ∧
    commands (Teleop.OnSlidersSwitch t true).effects =
      commands t.effects ++
        [((Teleop.OnSlidersSwitch t true).dataPtr.cmdVelPub,
          { linear := { x := Flt.mul t.dataPtr.linearVel (Flt.ofInt 1) },
            angular := { z := Flt.mul t.dataPtr.angularVel (Flt.ofInt 1) } })] := by
  have hc := OnTeleopTwist_commands
    { t with dataPtr := { t.dataPtr with linearDir := 1, angularDir := 1 } }
  obtain ⟨_, _, h3, h4, _⟩ := OnTeleopTwist_frame
    { t with dataPtr := { t.dataPtr with linearDir := 1, angularDir := 1 } }
  refine ⟨?_, ?_, ?_⟩
  · simpa [Teleop.OnSlidersSwitch] using h3
  · simpa [Teleop.OnSlidersSwitch] using h4
  · rw [Flt.mul_comm t.dataPtr.linearVel, Flt.mul_comm t.dataPtr.angularVel]
    simpa [Teleop.OnSlidersSwitch, Teleop.cmdVelMsg] using hc

/-! ## C6: topic selection -/

/-- C6: `OnTopicSelection n` records `n`, marks the publisher as pending and changes
nothing else in the state block; it advertises nothing and publishes nothing. The next
publish step advertises `n`, binds the publisher to `n`, clears the mark and sends one
command, whose message is the one the publish step would have sent without the topic
change. -/
theorem C6_OnTopicSelection_is_lazy (t : Teleop) (n : String) :
    (Teleop.OnTopicSelection t n).dataPtr = { t.dataPtr with newTopic := true, topic := n } ∧
    (Teleop.OnTopicSelection t n).dataPtr.cmdVelPub = t.dataPtr.cmdVelPub ∧
    advertised (Teleop.OnTopicSelection t n).effects = advertised t.effects ∧
    commands (Teleop.OnTopicSelection t n).effects = commands t.effects ∧
    (Teleop.OnTeleopTwist (Teleop.OnTopicSelection t n)).dataPtr.cmdVelPub
      = Publisher.bound n ∧
    (Teleop.OnTeleopTwist (Teleop.OnTopicSelection t n)).dataPtr.newTopic = false ∧
    (Teleop.OnTeleopTwist (Teleop.OnTopicSelection t n)).dataPtr.topic = n ∧
    advertised (Teleop.OnTeleopTwist (Teleop.OnTopicSelection t n)).effects
      = advertised t.effects ++ [n] ∧
    commands (Teleop.OnTeleopTwist (Teleop.OnTopicSelection t n)).effects
      = commands t.effects ++ [(Publisher.bound n, Teleop.cmdVelMsg t)] ∧
    commands (Teleop.OnTeleopTwist t).effects
      = commands t.effects ++
          [((Teleop.OnTeleopTwist t).dataPtr.cmdVelPub, Teleop.cmdVelMsg t)] := by
  refine ⟨rfl, rfl, ?_, ?_, ?_, ?_, ?_, ?_, ?_, OnTeleopTwist_commands t⟩ <;>
    simp [Teleop.OnTopicSelection, Teleop.OnTeleopTwist, Teleop.cmdVelMsg,
      advertised_append, commands_append, advertised, commands]

/-! ## C7: keys that are not recognised -/

/-- C7 (as stated, refuted): with keyboard control on and both directions at 1 (sliders
switched on), a press or a release of Q, which is not one of W, A, D, X, changes both
directions to 0 and adds one command. -/
theorem C7_counterexample_unrecognised_key_publishes :
    slidersAfterKeyboard.dataPtr.keyEnable = true ∧
    recognised Key_Q = false ∧
    slidersAfterKeyboard.dataPtr.linearDir = 1 ∧
    slidersAfterKeyboard.dataPtr.angularDir = 1 ∧
    (Teleop.eventFilter slidersAfterKeyboard (QEvent.KeyPress Key_Q)).dataPtr.linearDir = 0 ∧
    (Teleop.eventFilter slidersAfterKeyboard (QEvent.KeyPress Key_Q)).dataPtr.angularDir = 0 ∧
    (commands (Teleop.eventFilter slidersAfterKeyboard (QEvent.KeyPress Key_Q)).effects).length
      = (commands slidersAfterKeyboard.effects).length + 1 ∧
    (Teleop.eventFilter slidersAfterKeyboard (QEvent.KeyRelease Key_Q)).dataPtr.linearDir = 0 ∧
    (commands (Teleop.eventFilter slidersAfterKeyboard (QEvent.KeyRelease Key_Q)).effects).length
      = (commands slidersAfterKeyboard.effects).length + 1 := by
  decide

/-- C7 (amended): with keyboard control on, a press or a release of a key other than W,
A, D and X leaves both key states unchanged and writes the log line; both directions
are recomputed from the key states (so they are unchanged when they agreed with the key
states before), and exactly one command is added. -/
theorem C7_unrecognised_key_keeps_key_states (t : Teleop) (key : Int) (event : QEvent)
    (h : t.dataPtr.keyEnable = true) (hkey : recognised key = false)
    (hev : event = QEvent.KeyPress key ∨ event = QEvent.KeyRelease key) :
    (Teleop.eventFilter t event).dataPtr.linearState = t.dataPtr.linearState ∧
    (Teleop.eventFilter t event).dataPtr.angularState = t.dataPtr.angularState ∧
    (Teleop.eventFilter t event).dataPtr.linearDir = specLinearDir t.dataPtr.linearState ∧
    (Teleop.eventFilter t event).dataPtr.angularDir = specAngularDir t.dataPtr.angularState ∧
    (DirFromKeys t.dataPtr →
      (Teleop.eventFilter t event).dataPtr.linearDir = t.dataPtr.linearDir ∧
      (Teleop.eventFilter t event).dataPtr.angularDir = t.dataPtr.angularDir) ∧
    Effect.ignmsg LogLine.nonValidKey ∈ (Teleop.eventFilter t event).effects ∧
    commands (Teleop.eventFilter t event).effects =
      commands t.effects ++
        [((Teleop.eventFilter t event).dataPtr.cmdVelPub,
          Teleop.cmdVelMsg (Teleop.eventFilter t event))] := by
  have hk : event.isKey = true := by rcases hev with rfl | rfl <;> rfl
  obtain ⟨hd, _, _, hc⟩ := eventFilter_enabled_key t event h hk
  simp only [recognised, decide_eq_false_iff_not, not_or] at hkey
  obtain ⟨hW, hA, hD, hX⟩ := hkey
  have hstate : (Teleop.eventFilter t event).dataPtr.linearState = t.dataPtr.linearState ∧
      (Teleop.eventFilter t event).dataPtr.angularState = t.dataPtr.angularState ∧
      Effect.ignmsg LogLine.nonValidKey ∈ (Teleop.eventFilter t event).effects := by
    rcases hev with rfl | rfl
    · rw [eventFilter_press t key h]
      unfold Teleop.OnTeleopTwist
      split_ifs <;>
        simp [Teleop.setKeyDirection, Teleop.pressSwitch, hW, hA, hD, hX]
    · rw [eventFilter_release t key h]
      unfold Teleop.OnTeleopTwist
      split_ifs <;>
        simp [Teleop.setKeyDirection, Teleop.releaseSwitch, hW, hA, hD, hX]
  obtain ⟨hl, ha, hlog⟩ := hstate
  refine ⟨hl, ha, ?_, ?_, ?_, hlog, hc⟩
  · rw [hd.1, hl]
  · rw [hd.2, ha]
  · intro hinv
    rw [hd.1, hd.2, hl, ha]
    exact ⟨hinv.1.symm, hinv.2.symm⟩

/-- C7 (amended), at a concrete state: keyboard on, a press of Q. -/
theorem C7_unrecognised_key_keeps_key_states_witness :
    keyboardOn.dataPtr.keyEnable = true ∧ recognised Key_Q = false ∧
    (Teleop.eventFilter keyboardOn (QEvent.KeyPress Key_Q)).dataPtr.linearState
      = keyboardOn.dataPtr.linearState ∧
    (commands (Teleop.eventFilter keyboardOn (QEvent.KeyPress Key_Q)).effects).length = 1 :=
  ⟨by decide, by decide,
    (C7_unrecognised_key_keeps_key_states keyboardOn Key_Q (QEvent.KeyPress Key_Q)
      (by decide) (by decide) (Or.inl rfl)).1,
    by
      rw [(C7_unrecognised_key_keeps_key_states keyboardOn Key_Q (QEvent.KeyPress Key_Q)
        (by decide) (by decide) (Or.inl rfl)).2.2.2.2.2.2]
      decide⟩

/-! ## C8: directions as a function of the key states -/

/-- The two equations of `DirFromKeys` say that each direction is +1, -1 or 0 exactly
when its key state is forward/left, backward/right or stop. -/
theorem DirFromKeys_iff (d : TeleopPrivate) :
    DirFromKeys d ↔
      ((d.linearDir = 1 ↔ d.linearState = keyLinear.forward) ∧
        (d.linearDir = -1 ↔ d.linearState = keyLinear.backward) ∧
        (d.linearDir = 0 ↔ d.linearState = keyLinear.stop)) ∧
      ((d.angularDir = 1 ↔ d.angularState = keyAngular.left) ∧
        (d.angularDir = -1 ↔ d.angularState = keyAngular.right) ∧
        (d.angularDir = 0 ↔ d.angularState = keyAngular.stop)) := by
  unfold DirFromKeys
  cases hl : d.linearState <;> cases ha : d.angularState <;>
    simp [specLinearDir, specAngularDir] <;> omega

theorem step_keeps_DirFromKeys (t : Teleop) (o : Op) (ho : o.forcesDirection = false)
    (hinv : DirFromKeys t.dataPtr) : DirFromKeys (Teleop.step t o).dataPtr := by
  cases o with
  | OnTopicSelection topic => exact hinv
  | OnLinearVelSelection velocity => exact hinv
  | OnAngularVelSelection velocity => exact hinv
  | OnKeySwitch checked => simp [Op.forcesDirection] at ho
  | OnSlidersSwitch checked =>
    simp only [Op.forcesDirection] at ho
    simpa [Teleop.step, Teleop.OnSlidersSwitch, ho] using hinv
  | eventFilter event =>
    simp only [Teleop.step]
    cases hen : t.dataPtr.keyEnable with
    | false => rw [eventFilter_disabled t event hen]; exact hinv
    | true =>
      cases hk : event.isKey with
      | true => exact (eventFilter_enabled_key t event hen hk).1
      | false =>
        cases event with
        | KeyPress k => simp [QEvent.isKey] at hk
        | KeyRelease k => simp [QEvent.isKey] at hk
        | other => simpa [Teleop.eventFilter] using hinv
  | OnTeleopTwist =>
    obtain ⟨_, _, h3, h4, h5, h6, _⟩ := OnTeleopTwist_frame t
    unfold DirFromKeys
    simp only [Teleop.step]
    rw [h3, h4, h5, h6]
    exact hinv
  | setLinearDirection linearDir => simp [Op.forcesDirection] at ho
  | setAngularDirection angularDir => simp [Op.forcesDirection] at ho

theorem run_keeps_DirFromKeys (ops : List Op) :
    ∀ t : Teleop, (∀ o ∈ ops, o.forcesDirection = false) → DirFromKeys t.dataPtr →
      DirFromKeys (Teleop.run t ops).dataPtr := by
  induction ops with
  | nil => intro t _ hinv; exact hinv
  | cons o os ih =>
    intro t hops hinv
    have h1 := step_keeps_DirFromKeys t o (hops o (List.mem_cons_self o os)) hinv
    exact ih (Teleop.step t o) (fun x hx => hops x (List.mem_cons_of_mem o hx)) h1

/-- C8 (as stated, refuted): switching the sliders on in the fresh plugin sets both
directions to 1 while both key states are still stop. -/
theorem C8_counterexample_sliders_break_invariant :
    (Teleop.run Teleop.new [Op.OnSlidersSwitch true]).dataPtr.linearDir = 1 ∧
    (Teleop.run Teleop.new [Op.OnSlidersSwitch true]).dataPtr.linearState = keyLinear.stop ∧
    (Teleop.run Teleop.new [Op.OnSlidersSwitch true]).dataPtr.angularDir = 1 ∧
    (Teleop.run Teleop.new [Op.OnSlidersSwitch true]).dataPtr.angularState = keyAngular.stop ∧
    ¬ DirFromKeys (Teleop.run Teleop.new [Op.OnSlidersSwitch true]).dataPtr := by
  decide

/-- C8 (amended): the directions are the function of the key states (linearDir is
+1 / -1 / 0 exactly for forward / backward / stop, angularDir is +1 / -1 / 0 exactly for
left / right / stop) in every state reached from the initial state by a sequence of
operations in which no `OnKeySwitch`, `OnSlidersSwitch(true)`, `setLinearDirection` or
`setAngularDirection` comes after the last key event handled with keyboard control on,
and in every state reached by a sequence without these four operations. -/
theorem C8_directions_follow_keys_after_key_event (before : List Op) (event : QEvent)
    (after : List Op)
    (hen : (Teleop.run Teleop.new before).dataPtr.keyEnable = true)
    (hkey : event.isKey = true)
    (hafter : ∀ o ∈ after, o.forcesDirection = false) :
    DirFromKeys (Teleop.run Teleop.new (before ++ [Op.eventFilter event] ++ after)).dataPtr ∧
    DirFromKeys (Teleop.run Teleop.new after).dataPtr := by
  refine ⟨?_, ?_⟩
  · rw [Teleop.run_append, Teleop.run_append]
    apply run_keeps_DirFromKeys after _ hafter
    exact (eventFilter_enabled_key _ event hen hkey).1
  · exact run_keeps_DirFromKeys after Teleop.new hafter (by decide)

/-- C8 (amended), on a concrete run: keyboard on, sliders on, press of X, then a new
topic and a publish step. -/
theorem C8_directions_follow_keys_after_key_event_witness :
    (Teleop.run Teleop.new [Op.OnKeySwitch true, Op.OnSlidersSwitch true]).dataPtr.keyEnable
      = true ∧
    DirFromKeys (Teleop.run Teleop.new
      ([Op.OnKeySwitch true, Op.OnSlidersSwitch true] ++
        [Op.eventFilter (QEvent.KeyPress Key_X)] ++
        [Op.OnTopicSelection "/robot/cmd_vel", Op.OnTeleopTwist])).dataPtr :=
  ⟨by decide,
    (C8_directions_follow_keys_after_key_event
      [Op.OnKeySwitch true, Op.OnSlidersSwitch true] (QEvent.KeyPress Key_X)
      [Op.OnTopicSelection "/robot/cmd_vel", Op.OnTeleopTwist]
      (by decide) rfl (by decide)).1⟩

/-! ## C9: the switches and the key states -/

/-- C9 (as stated, refuted): with keyboard control on and X held, switching the sliders
on and then pressing W leaves linearDir at +1, and releasing X leaves it at 0; neither
key event brings linearDir back to -1. -/
theorem C9_counterexample_press_W_after_sliders :
    holdingX.dataPtr.keyEnable = true ∧
    holdingX.dataPtr.linearState = keyLinear.backward ∧
    holdingX.dataPtr.linearDir = -1 ∧
    (Teleop.OnSlidersSwitch holdingX true).dataPtr.linearDir = 1 ∧
    (Teleop.eventFilter (Teleop.OnSlidersSwitch holdingX true)
      (QEvent.KeyPress Key_W)).dataPtr.linearDir = 1 ∧
    (Teleop.eventFilter (Teleop.OnSlidersSwitch holdingX true)
      (QEvent.KeyRelease Key_X)).dataPtr.linearDir = 0 := by
  decide

/-- C9 (amended): `OnKeySwitch b` and `OnSlidersSwitch b` leave both key states
unchanged. With keyboard control on and X held (linear key state backward),
`OnSlidersSwitch true` sets both directions to 1, and the next key event that does not
change the linear key state (a press or a release of a key other than W and X, such as a
press of A, or a press of X) recomputes linearDir to -1. -/
theorem C9_stale_key_state_reasserts (t : Teleop) (b : Bool) (u : Teleop) (event : QEvent)
    (hen : u.dataPtr.keyEnable = true)
    (hback : u.dataPtr.linearState = keyLinear.backward)
    (hev : event = QEvent.KeyPress Key_X ∨
      ∃ key : Int, key ≠ Key_W ∧ key ≠ Key_X ∧
        (event = QEvent.KeyPress key ∨ event = QEvent.KeyRelease key)) :
    ((Teleop.OnKeySwitch t b).dataPtr.linearState = t.dataPtr.linearState ∧
      (Teleop.OnKeySwitch t b).dataPtr.angularState = t.dataPtr.angularState ∧
      (Teleop.OnSlidersSwitch t b).dataPtr.linearState = t.dataPtr.linearState ∧
      (Teleop.OnSlidersSwitch t b).dataPtr.angularState = t.dataPtr.angularState) ∧
    ((Teleop.OnSlidersSwitch u true).dataPtr.linearDir = 1 ∧
      (Teleop.OnSlidersSwitch u true).dataPtr.angularDir = 1 ∧
      (Teleop.eventFilter (Teleop.OnSlidersSwitch u true) (QEvent.KeyPress Key_A)).dataPtr.linearDir
        = -1 ∧
      (Teleop.eventFilter (Teleop.OnSlidersSwitch u true) event).dataPtr.linearDir = -1) := by
  have hframe : ∀ (s : Teleop) (c : Bool),
      (Teleop.OnSlidersSwitch s c).dataPtr.linearState = s.dataPtr.linearState ∧
      (Teleop.OnSlidersSwitch s c).dataPtr.angularState = s.dataPtr.angularState ∧
      (Teleop.OnSlidersSwitch s c).dataPtr.keyEnable = s.dataPtr.keyEnable := by
    intro s c
    cases c with
    | false => simp [Teleop.OnSlidersSwitch]
    | true =>
      obtain ⟨_, _, _, _, h5, h6, h7, _⟩ := OnTeleopTwist_frame
        { s with dataPtr := { s.dataPtr with linearDir := 1, angularDir := 1 } }
      simp only [Teleop.OnSlidersSwitch, if_true]
      exact ⟨h5, h6, h7⟩
  have hdir : ∀ s : Teleop,
      (Teleop.OnSlidersSwitch s true).dataPtr.linearDir = 1 ∧
      (Teleop.OnSlidersSwitch s true).dataPtr.angularDir = 1 := by
    intro s
    obtain ⟨_, _, h3, h4, _⟩ := OnTeleopTwist_frame
      { s with dataPtr := { s.dataPtr with linearDir := 1, angularDir := 1 } }
    simp only [Teleop.OnSlidersSwitch, if_true]
    exact ⟨h3, h4⟩
  have hen1 : (Teleop.OnSlidersSwitch u true).dataPtr.keyEnable = true := by
    rw [(hframe u true).2.2, hen]
  have hback1 : (Teleop.OnSlidersSwitch u true).dataPtr.linearState = keyLinear.backward := by
    rw [(hframe u true).1, hback]
  -- a key event that keeps the linear key state at backward gives linearDir = -1
  have hkeep : ∀ (s : Teleop) (ev : QEvent), s.dataPtr.keyEnable = true →
      s.dataPtr.linearState = keyLinear.backward →
      (ev = QEvent.KeyPress Key_X ∨
        ∃ key : Int, key ≠ Key_W ∧ key ≠ Key_X ∧
          (ev = QEvent.KeyPress key ∨ ev = QEvent.KeyRelease key)) →
      (Teleop.eventFilter s ev).dataPtr.linearDir = -1 := by
    intro s ev hs hb hcase
    have hlin : (Teleop.eventFilter s ev).dataPtr.linearState = keyLinear.backward := by
      rcases hcase with rfl | ⟨key, hW, hX, rfl | rfl⟩
      · rw [eventFilter_press s _ hs, (keyTail_spec _).2.1]
        simp [Teleop.pressSwitch, Key_W, Key_A, Key_D, Key_X]
      · rw [eventFilter_press s _ hs, (keyTail_spec _).2.1]
        unfold Teleop.pressSwitch
        split_ifs <;> first | contradiction | simp [hb]
      · rw [eventFilter_release s _ hs, (keyTail_spec _).2.1]
        unfold Teleop.releaseSwitch
        split_ifs <;> first | contradiction | simp [hb]
    have hk : ev.isKey = true := by
      rcases hcase with rfl | ⟨key, _, _, rfl | rfl⟩ <;> rfl
    rw [(eventFilter_enabled_key s ev hs hk).1.1, hlin]
    rfl
  refine ⟨⟨rfl, rfl, (hframe t b).1, (hframe t b).2.1⟩, (hdir u).1, (hdir u).2, ?_, ?_⟩
  · exact hkeep _ _ hen1 hback1
      (Or.inr ⟨Key_A, by decide, by decide, Or.inl rfl⟩)
  · exact hkeep _ _ hen1 hback1 hev

/-- C9 (amended), at a concrete state: keyboard on, X held, then a release of D. -/
theorem C9_stale_key_state_reasserts_witness :
    holdingX.dataPtr.keyEnable = true ∧
    holdingX.dataPtr.linearState = keyLinear.backward ∧
    (Teleop.OnSlidersSwitch holdingX true).dataPtr.linearDir = 1 ∧
    (Teleop.eventFilter (Teleop.OnSlidersSwitch holdingX true)
      (QEvent.KeyRelease Key_D)).dataPtr.linearDir = -1 :=
  ⟨by decide, by decide,
    (C9_stale_key_state_reasserts holdingX true holdingX (QEvent.KeyRelease Key_D)
      (by decide) (by decide)
      (Or.inr ⟨Key_D, by decide, by decide, Or.inr rfl⟩)).2.1,
    (C9_stale_key_state_reasserts holdingX true holdingX (QEvent.KeyRelease Key_D)
      (by decide) (by decide)
      (Or.inr ⟨Key_D, by decide, by decide, Or.inr rfl⟩)).2.2.2.2⟩

/-! ## C10: the publisher and the current topic -/

theorem SendsOn_of_no_command (topic : String) (t1 t2 : Teleop) (added : List Effect)
    (h : t2.effects = t1.effects ++ added) (hc : commands added = []) :
    SendsOn topic t1 t2 :=
  ⟨added, h, by rw [hc]; intro c hmem; cases hmem⟩

/-- The publish step, run on a state `s` that differs from `t` in directions, key states
and log lines only, keeps the publisher usable and sends on the topic of `t`. -/
theorem OnTeleopTwist_sends_on_topic (t s : Teleop) (hinv : PublisherBound t.dataPtr)
    (htopic : s.dataPtr.topic = t.dataPtr.topic)
    (hnew : s.dataPtr.newTopic = t.dataPtr.newTopic)
    (hpub : s.dataPtr.cmdVelPub = t.dataPtr.cmdVelPub)
    (extra : List Effect) (heff : s.effects = t.effects ++ extra)
    (hextra : commands extra = []) :
    PublisherBound (Teleop.OnTeleopTwist s).dataPtr ∧
    (Teleop.OnTeleopTwist s).dataPtr.topic = t.dataPtr.topic ∧
    SendsOn t.dataPtr.topic t (Teleop.OnTeleopTwist s) := by
  unfold PublisherBound at hinv ⊢
  by_cases h : s.dataPtr.newTopic = true
  · refine ⟨?_, ?_, extra ++ [Effect.advertise s.dataPtr.topic,
      Effect.publish (Publisher.bound s.dataPtr.topic) (Teleop.cmdVelMsg s)], ?_, ?_⟩
    · simp [Teleop.OnTeleopTwist, h]
    · simp [Teleop.OnTeleopTwist, h, htopic]
    · simp [Teleop.OnTeleopTwist, h, heff]
    · simp [commands_append, hextra, commands, htopic]
  · have hf : s.dataPtr.newTopic = false := by simpa using h
    have hb : s.dataPtr.cmdVelPub = Publisher.bound t.dataPtr.topic := by
      rw [hpub]; exact hinv (by rw [← hnew, hf])
    refine ⟨?_, ?_, extra ++ [Effect.publish s.dataPtr.cmdVelPub (Teleop.cmdVelMsg s)],
      ?_, ?_⟩
    · simp [Teleop.OnTeleopTwist, hf, hb, htopic]
    · simp [Teleop.OnTeleopTwist, hf, htopic]
    · simp [Teleop.OnTeleopTwist, hf, heff]
    · simp [commands_append, hextra, commands, hb]

theorem pressSwitch_effects (t : Teleop) (key : Int) :
    ∃ extra : List Effect, (Teleop.pressSwitch t key).effects = t.effects ++ extra ∧
      commands extra = [] := by
  unfold Teleop.pressSwitch
  split_ifs
  · exact ⟨[], by simp, rfl⟩
  · exact ⟨[], by simp, rfl⟩
  · exact ⟨[], by simp, rfl⟩
  · exact ⟨[], by simp, rfl⟩
  · exact ⟨[Effect.ignmsg LogLine.nonValidKey], rfl, rfl⟩

theorem releaseSwitch_effects (t : Teleop) (key : Int) :
    ∃ extra : List Effect, (Teleop.releaseSwitch t key).effects = t.effects ++ extra ∧
      commands extra = [] := by
  unfold Teleop.releaseSwitch
  split_ifs
  · exact ⟨[], by simp, rfl⟩
  · exact ⟨[], by simp, rfl⟩
  · exact ⟨[], by simp, rfl⟩
  · exact ⟨[], by simp, rfl⟩
  · exact ⟨[Effect.ignmsg LogLine.nonValidKey], rfl, rfl⟩

/-- Every call keeps the publisher usable; it changes the topic only when it is
`OnTopicSelection`, and every command it adds goes through a publisher bound to the
topic that is current after the call. -/
theorem step_sends_on_topic (t : Teleop) (o : Op) (hinv : PublisherBound t.dataPtr) :
    PublisherBound (Teleop.step t o).dataPtr ∧
    (Teleop.step t o).dataPtr.topic =
      (match o with
        | Op.OnTopicSelection topic => topic
        | _ => t.dataPtr.topic) ∧
    SendsOn (Teleop.step t o).dataPtr.topic t (Teleop.step t o) := by
  have same : SendsOn t.dataPtr.topic t t :=
    SendsOn_of_no_command _ t t [] (by simp) rfl
  cases o with
  | OnTopicSelection topic =>
    refine ⟨?_, rfl, SendsOn_of_no_command _ _ _ [Effect.ignmsg (LogLine.topic topic)] rfl rfl⟩
    simp [PublisherBound, Teleop.step, Teleop.OnTopicSelection]
  | OnLinearVelSelection velocity =>
    exact ⟨hinv, rfl, SendsOn_of_no_command _ _ _
      [Effect.ignmsg (LogLine.linearVelocity (Flt.toFloat velocity))] rfl rfl⟩
  | OnAngularVelSelection velocity =>
    exact ⟨hinv, rfl, SendsOn_of_no_command _ _ _
      [Effect.ignmsg (LogLine.angularVelocity (Flt.toFloat velocity))] rfl rfl⟩
  | OnKeySwitch checked =>
    exact ⟨hinv, rfl, SendsOn_of_no_command _ _ _ [] (by simp [Teleop.step, Teleop.OnKeySwitch]) rfl⟩
  | OnSlidersSwitch checked =>
    cases checked with
    | false => exact ⟨hinv, rfl, same⟩
    | true =>
      have h := OnTeleopTwist_sends_on_topic t
        { t with dataPtr := { t.dataPtr with linearDir := 1, angularDir := 1 } }
        hinv rfl rfl rfl [] (by simp) rfl
      have e : Teleop.step t (Op.OnSlidersSwitch true) = Teleop.OnTeleopTwist
          { t with dataPtr := { t.dataPtr with linearDir := 1, angularDir := 1 } } := by
        simp [Teleop.step, Teleop.OnSlidersSwitch]
      rw [e]
      exact ⟨h.1, h.2.1, by rw [h.2.1]; exact h.2.2⟩
  | eventFilter event =>
    simp only [Teleop.step]
    cases hen : t.dataPtr.keyEnable with
    | false => rw [eventFilter_disabled t event hen]; exact ⟨hinv, rfl, same⟩
    | true =>
      cases event with
      | KeyPress key =>
        obtain ⟨extra, he, hc⟩ := pressSwitch_effects t key
        obtain ⟨_, _, _, p4, p5, p6, _⟩ := pressSwitch_frame t key
        obtain ⟨_, _, _, _, _, _, _, k8, k9, k10, k11⟩ :=
          setKeyDirection_spec (Teleop.pressSwitch t key)
        have h := OnTeleopTwist_sends_on_topic t
          (Teleop.setKeyDirection (Teleop.pressSwitch t key)) hinv
          (by rw [k8, p4]) (by rw [k9, p5]) (by rw [k10, p6]) extra (by rw [k11, he]) hc
        rw [eventFilter_press t key hen]
        exact ⟨h.1, h.2.1, by rw [h.2.1]; exact h.2.2⟩
      | KeyRelease key =>
        obtain ⟨extra, he, hc⟩ := releaseSwitch_effects t key
        obtain ⟨_, _, _, p4, p5, p6, _⟩ := releaseSwitch_frame t key
        obtain ⟨_, _, _, _, _, _, _, k8, k9, k10, k11⟩ :=
          setKeyDirection_spec (Teleop.releaseSwitch t key)
        have h := OnTeleopTwist_sends_on_topic t
          (Teleop.setKeyDirection (Teleop.releaseSwitch t key)) hinv
          (by rw [k8, p4]) (by rw [k9, p5]) (by rw [k10, p6]) extra (by rw [k11, he]) hc
        rw [eventFilter_release t key hen]
        exact ⟨h.1, h.2.1, by rw [h.2.1]; exact h.2.2⟩
      | other => exact ⟨hinv, rfl, same⟩
  | OnTeleopTwist =>
    have h := OnTeleopTwist_sends_on_topic t t hinv rfl rfl rfl [] (by simp) rfl
    exact ⟨h.1, h.2.1, by simp only [Teleop.step]; rw [h.2.1]; exact h.2.2⟩
  | setLinearDirection linearDir =>
    exact ⟨hinv, rfl, SendsOn_of_no_command _ _ _ [Effect.LinearDirectionChanged] rfl rfl⟩
  | setAngularDirection angularDir =>
    exact ⟨hinv, rfl, SendsOn_of_no_command _ _ _ [Effect.AngularDirectionChanged] rfl rfl⟩

theorem lastTopic_snoc (ops : List Op) (o : Op) :
    lastTopic (ops ++ [o]) =
      (match o with
        | Op.OnTopicSelection topic => topic
        | _ => lastTopic ops) := by
  simp [lastTopic, List.foldl_append]

/-- In every reachable state the publisher is usable, the topic is the one selected
last, and no command so far went through an unbound publisher. -/
theorem run_publisher_bound (ops : List Op) :
    PublisherBound (Teleop.run Teleop.new ops).dataPtr ∧
    (Teleop.run Teleop.new ops).dataPtr.topic = lastTopic ops ∧
    ∀ c ∈ commands (Teleop.run Teleop.new ops).effects, c.1 ≠ Publisher.unbound := by
  induction ops using List.reverseRecOn with
  | nil =>
    refine ⟨?_, rfl, ?_⟩
    · intro h; cases h
    · intro c hc; cases hc
  | append_singleton ops o ih =>
    obtain ⟨h1, h2, h3⟩ := ih
    have e : Teleop.run Teleop.new (ops ++ [o]) =
        Teleop.step (Teleop.run Teleop.new ops) o := by
      simp [Teleop.run, List.foldl_append]
    obtain ⟨s1, s2, added, s3, s4⟩ := step_sends_on_topic (Teleop.run Teleop.new ops) o h1
    rw [e]
    refine ⟨s1, ?_, ?_⟩
    · rw [s2, lastTopic_snoc, h2]
    · intro c hc
      rw [s3, commands_append, List.mem_append] at hc
      rcases hc with hc | hc
      · exact h3 c hc
      · rw [s4 c hc]; simp

/-- C10: in every state reached from the initial state the publisher is bound to the
current topic whenever no topic change is pending, and the current topic is the one
passed last to `OnTopicSelection` (`/cmd_vel` if there was none); every command that a
further operation adds is sent through a publisher bound to the topic selected last,
and no command of the whole run went through an unbound publisher. -/
theorem C10_commands_go_to_selected_topic (ops : List Op) (o : Op) :
    ((Teleop.run Teleop.new ops).dataPtr.newTopic = false →
      (Teleop.run Teleop.new ops).dataPtr.cmdVelPub
        = Publisher.bound (Teleop.run Teleop.new ops).dataPtr.topic) ∧
    (Teleop.run Teleop.new ops).dataPtr.topic = lastTopic ops ∧
    (∃ added : List Effect,
      (Teleop.run Teleop.new (ops ++ [o])).effects
        = (Teleop.run Teleop.new ops).effects ++ added ∧
      ∀ c ∈ commands added, c.1 = Publisher.bound (lastTopic (ops ++ [o]))) ∧
    (∀ c ∈ commands (Teleop.run Teleop.new ops).effects, c.1 ≠ Publisher.unbound) := by
  obtain ⟨h1, h2, h3⟩ := run_publisher_bound ops
  obtain ⟨g1, g2, _⟩ := run_publisher_bound (ops ++ [o])
  have e : Teleop.run Teleop.new (ops ++ [o]) =
      Teleop.step (Teleop.run Teleop.new ops) o := by
    simp [Teleop.run, List.foldl_append]
  obtain ⟨_, _, added, s3, s4⟩ := step_sends_on_topic (Teleop.run Teleop.new ops) o h1
  refine ⟨h1, h2, ⟨added, ?_, ?_⟩, h3⟩
  · rw [e]; exact s3
  · intro c hc
    rw [s4 c hc, ← g2, e]

end IgnGui
